import Mathlib

/-!
Shallow embedding of the poker calculator core (`poker_logic.py`):
the card model, the 5-card hand evaluator, the best-of-5-to-7 maximization,
the Monte Carlo tally/aggregation arithmetic of `calculate_odds`,
the equity aggregation of `_simulate_equity`, the outs classification of
`calculate_outs`, and the deck bookkeeping used by the simulation loops.
Randomized draws are modelled by quantifying over all outcomes that
`random.sample` can produce (distinct cards taken from the current deck).
-/

namespace Poker

/-- `Suit` enum from `poker_logic.py` (declaration order preserved). -/
inductive Suit
  | hearts
  | diamonds
  | clubs
  | spades
deriving DecidableEq, Repr

/-- `Rank` enum from `poker_logic.py` (declaration order preserved: 2 .. Ace). -/
inductive Rank
  | two | three | four | five | six | seven | eight | nine | ten
  | jack | queen | king | ace
deriving DecidableEq, Repr

/-- `Card` from `poker_logic.py`: a (rank, suit) pair with value equality. -/
structure Card where
  rank : Rank
  suit : Suit
deriving DecidableEq, Repr

/-- `Card.value = list(Rank).index(rank)`: the 0-based position of the rank
in declaration order, so TWO ↦ 0, …, TEN ↦ 8, JACK ↦ 9, QUEEN ↦ 10,
KING ↦ 11, ACE ↦ 12. -/
def rankValue : Rank → Nat
  | .two => 0 | .three => 1 | .four => 2 | .five => 3 | .six => 4
  | .seven => 5 | .eight => 6 | .nine => 7 | .ten => 8
  | .jack => 9 | .queen => 10 | .king => 11 | .ace => 12

/-- `Card.value` of a card. -/
def cardValue (c : Card) : Nat := rankValue c.rank

/-- All ranks in declaration order (`list(Rank)`). -/
def allRanks : List Rank :=
  [.two, .three, .four, .five, .six, .seven, .eight, .nine, .ten,
   .jack, .queen, .king, .ace]

/-- All suits in declaration order (`list(Suit)`). -/
def allSuits : List Suit := [.hearts, .diamonds, .clubs, .spades]

/-- `PokerCalculator._create_deck`:
`[Card(rank, suit) for suit in Suit for rank in Rank]`. -/
def createDeck : List Card :=
  (allSuits.map (fun s => allRanks.map (fun r => ⟨r, s⟩))).flatten

/-- Python comparison `<` on lists of ints (`list.__lt__`): lexicographic,
with a strict prefix less than the longer list.  `evaluate_hand` scores are
compared with exactly this order (`score > best_score`). -/
def listLt : List Nat → List Nat → Bool
  | [], [] => false
  | [], _ :: _ => true
  | _ :: _, [] => false
  | a :: as, b :: bs => if a < b then true else if b < a then false else listLt as bs

/-- The wheel test set from `evaluate_hand` line 69:
`set(rank_values) == {14,2,3,4,5}`.  (Note the card values actually range
over 0..12, so this set is never attained.) -/
def wheelSet : Finset Nat := {14, 2, 3, 4, 5}

/-- `PokerCalculator.evaluate_hand`: classifies an exact 5-card hand into a
category name and a comparable score vector (category tier first, then the
tie-break values), mirroring the Python control flow branch for branch. -/
def evaluate_hand (cards : List Card) : String × List Nat :=
  if cards.length ≠ 5 then ("Invalid", [0]) else
  let ranks : List Rank := cards.map (·.rank)
  let rankValuesInit : List Nat := (cards.map cardValue).insertionSort (· ≥ ·)
  let sortedVals : List Nat := rankValuesInit.insertionSort (· ≤ ·)
  let isStraightInit : Bool :=
    (sortedVals.zip sortedVals.tail).all fun p => p.1 + 1 == p.2
  let isWheel : Bool := decide ((cards.map cardValue).toFinset = wheelSet)
  let isStraight : Bool := isStraightInit || isWheel
  let rankValues : List Nat := if isWheel then [5, 4, 3, 2, 14] else rankValuesInit
  let isFlush : Bool := (cards.map (·.suit)).dedup.length == 1
  let counts : List (Rank × Nat) := ranks.dedup.map fun r => (r, ranks.count r)
  let mx : Nat := rankValues.maximum.getD 0
  let mn : Nat := rankValues.minimum.getD 0
  if isFlush && isStraight then
    if mx == 14 && mn == 10 then ("Royal Flush", [10, mx])
    else ("Straight Flush", [9, mx])
  else if counts.any (fun p => p.2 == 4) then
    let quad : Rank := ((counts.filter (fun p => p.2 == 4)).headD (Rank.two, 0)).1
    let kicker : Rank := (ranks.dedup.filter (fun r => r ≠ quad)).headD Rank.two
    ("Four of a Kind", [8, rankValue quad, rankValue kicker])
  else if counts.any (fun p => p.2 == 3) && counts.any (fun p => p.2 == 2) then
    let trips : Rank := ((counts.filter (fun p => p.2 == 3)).headD (Rank.two, 0)).1
    let pairRank : Rank := ((counts.filter (fun p => p.2 == 2)).headD (Rank.two, 0)).1
    ("Full House", [7, rankValue trips, rankValue pairRank])
  else if isFlush then ("Flush", 6 :: rankValues)
  else if isStraight then ("Straight", [5, mx])
  else if counts.any (fun p => p.2 == 3) then
    let trips : Rank := ((counts.filter (fun p => p.2 == 3)).headD (Rank.two, 0)).1
    let kickers : List Nat :=
      ((ranks.dedup.filter (fun r => r ≠ trips)).map rankValue).insertionSort (· ≥ ·)
    ("Three of a Kind", 4 :: rankValue trips :: kickers)
  else
    let pairs : List Rank := (counts.filter (fun p => p.2 == 2)).map (·.1)
    if pairs.length == 2 then
      let pairVals : List Nat := (pairs.map rankValue).insertionSort (· ≥ ·)
      let kicker : Rank := ((counts.filter (fun p => p.2 == 1)).headD (Rank.two, 0)).1
      ("Two Pair", 3 :: (pairVals ++ [rankValue kicker]))
    else if pairs.length == 1 then
      let pairVal : Nat := rankValue (pairs.headD Rank.two)
      let kickers : List Nat :=
        (((counts.filter (fun p => p.2 == 1)).map (·.1)).map rankValue).insertionSort (· ≥ ·)
      ("One Pair", 2 :: pairVal :: kickers)
    else ("High Card", 1 :: rankValues)

/-- The wheel hand `{2h, 3d, 4s, 5c, Ah}` from the spec's test vector. -/
def wheelHand : List Card :=
  [⟨.two, .hearts⟩, ⟨.three, .diamonds⟩, ⟨.four, .spades⟩,
   ⟨.five, .clubs⟩, ⟨.ace, .hearts⟩]

/-- The royal hand `{Ah, Kh, Qh, Jh, Th}` from the spec's test vector. -/
def royalHand : List Card :=
  [⟨.ace, .hearts⟩, ⟨.king, .hearts⟩, ⟨.queen, .hearts⟩,
   ⟨.jack, .hearts⟩, ⟨.ten, .hearts⟩]

/-- Python `max` over a nonempty list of score vectors
(`max(best_scores)`), keeping the current maximum unless a later element
is strictly greater; `[]` stands for the (never-reached) empty case. -/
def maxList (l : List (List Nat)) : List Nat :=
  match l with
  | [] => []
  | h :: t => t.foldl (fun acc x => if listLt acc x then x else acc) h

/-- `winners = [i for i, s in enumerate(best_scores) if s == max_score]`
from `calculate_odds` line 187. -/
def winnersOf (scores : List (List Nat)) : List Nat :=
  (List.range scores.length).filter fun i => decide (scores.getD i [] = maxList scores)

/-- Per-player win counter of `calculate_odds` (lines 189-190): a trial
increments `results[i]['wins']` exactly when `i` is the sole winner. -/
def oddsWins (trials : List (List (List Nat))) (i : Nat) : Nat :=
  trials.countP fun s => decide (winnersOf s = [i])

/-- Per-player tie counter of `calculate_odds` (lines 191-193): a trial
increments `results[i]['ties']` exactly when the winner list is not a
singleton and contains `i`. -/
def oddsTies (trials : List (List (List Nat))) (i : Nat) : Nat :=
  trials.countP fun s => decide ((winnersOf s).length ≠ 1 ∧ i ∈ winnersOf s)

/-- The value of the loop variable `winners` after the trial loop of
`calculate_odds` finishes: the winner list of the final trial. -/
def oddsLastWinners (trials : List (List (List Nat))) : List Nat :=
  winnersOf (trials.getLastD [])

/-- `win_pct = results[i]['wins'] / sims * 100` (line 198). -/
def oddsWinPct (trials : List (List (List Nat))) (i : Nat) : ℚ :=
  (oddsWins trials i : ℚ) / (trials.length : ℚ) * 100

/-- `tie_pct = results[i]['ties'] / sims * 100` (line 199). -/
def oddsTiePct (trials : List (List (List Nat))) (i : Nat) : ℚ :=
  (oddsTies trials i : ℚ) / (trials.length : ℚ) * 100

/-- `equity = win_pct + tie_pct / len(winners) if winners else win_pct`
(line 200), where `winners` is the stale loop variable holding the final
trial's winner list. -/
def oddsEquity (trials : List (List (List Nat))) (i : Nat) : ℚ :=
  if oddsLastWinners trials = [] then oddsWinPct trials i
  else oddsWinPct trials i + oddsTiePct trials i / ((oddsLastWinners trials).length : ℚ)

/-- `player_score = best_scores[0]` from `_simulate_equity` line 336. -/
def simPlayerScore (scores : List (List Nat)) : List Nat := scores.headD []

/-- `opponent_best = max(best_scores[1:]) if len(best_scores) > 1 else [0]`
from `_simulate_equity` line 337. -/
def simOppBest (scores : List (List Nat)) : List Nat :=
  match scores with
  | _ :: b :: rest => rest.foldl (fun acc x => if listLt acc x then x else acc) b
  | _ => [0]

/-- Win counter of `_simulate_equity` (lines 339-340): a trial counts as a
win when the player's best score strictly beats the best opponent score. -/
def simWins (trials : List (List (List Nat))) : Nat :=
  trials.countP fun s => listLt (simOppBest s) (simPlayerScore s)

/-- Tie counter of `_simulate_equity` (lines 341-342): counted when the
trial is not a win and the player's score equals the best opponent score. -/
def simTies (trials : List (List (List Nat))) : Nat :=
  trials.countP fun s =>
    !(listLt (simOppBest s) (simPlayerScore s)) && decide (simPlayerScore s = simOppBest s)

/-- `return (wins + ties / 2) / sims * 100` from `_simulate_equity`
line 344 (identical in `_simulate_equity_with_river` line 398). -/
def simEquityAgg (trials : List (List (List Nat))) : ℚ :=
  ((simWins trials : ℚ) + (simTies trials : ℚ) / 2) / (trials.length : ℚ) * 100

/-- `sims // 10`: the trial count handed to `_simulate_equity_with_river`
for each candidate river card (`calculate_outs` line 269). -/
def secondaryTrials (sims : Nat) : Nat := sims / 10

/-- The out-classification loop of `calculate_outs` (lines 266-281): keep a
candidate river card exactly when its measured equity exceeds the baseline
by strictly more than 20 percentage points.  `equityOf` abstracts the
randomized secondary simulation `_simulate_equity_with_river`. -/
def outsFrom (equityOf : Card → ℚ) (currentEquity : ℚ) (deck : List Card) : List Card :=
  deck.filter fun c => decide (currentEquity + 20 < equityOf c)

/-- The known-card removal loop used by `calculate_odds` (lines 144-155)
and `calculate_outs` (lines 253-255):
`for card in used: if card in deck: deck.remove(card)` — a card not in the
deck is silently skipped. -/
def removeCards (deck used : List Card) : List Card :=
  used.foldl (fun d c => if c ∈ d then d.erase c else d) deck

/-- Unconditional removal of drawn cards
(`for card in hand: deck.remove(card)` after a `random.sample`). -/
def eraseCards (deck drawn : List Card) : List Card :=
  drawn.foldl List.erase deck

/-- One per-trial sequence of random draws: each draw is a duplicate-free
list of cards taken from the current deck (the contract of
`random.sample(deck, k)`), and the drawn cards are removed before the next
draw, as in `calculate_odds` lines 157-173. -/
def validDraws : List Card → List (List Card) → Bool
  | _, [] => true
  | d, draw :: rest =>
      decide draw.Nodup && draw.all (fun c => decide (c ∈ d)) &&
        validDraws (eraseCards d draw) rest

/-- Error kind named by the spec for `deckExcluding`. -/
inductive DeckError
  | duplicateCard
deriving DecidableEq, Repr

/-- Modelled from the spec: `deckExcluding(deck, usedCards)` as §4.1 words
it — removes each used card and "fails with `DuplicateCardError` if a card
in `usedCards` does not exist in `deck`".  The code under `src/` has no
such failure path; this definition exists only to be compared with the
code's `removeCards`. -/
def deckExcludingSpec : List Card → List Card → Except DeckError (List Card)
  | d, [] => .ok d
  | d, c :: rest =>
      if c ∈ d then deckExcludingSpec (d.erase c) rest
      else .error .duplicateCard

/-- The unknown-opponent while-loop of `_simulate_equity` (lines 312-317)
and `_simulate_equity_with_river` (lines 373-378), with explicit fuel:
`while len(all_hands) <= num_opponents: if len(temp_deck) >= 2: draw`.
`none` means the fuel ran out or the guarded branch was unavailable while
the loop condition still held (the code would spin forever in that case);
`sample2` abstracts `random.sample(temp_deck, 2)`. -/
def fillHandsFuel (sample2 : List Card → List Card) :
    Nat → List (List Card) → List Card → Nat → Option (List (List Card) × List Card)
  | 0, _, _, _ => none
  | fuel + 1, hands, deck, numOpp =>
    if hands.length ≤ numOpp then
      if 2 ≤ deck.length then
        fillHandsFuel sample2 fuel (hands ++ [sample2 deck])
          (eraseCards deck (sample2 deck)) numOpp
      else none
    else some (hands, deck)

/-- One step of the Python `best_score` maximization:
`if best_score is None or score > best_score: best_score = score`. -/
def bestStep (best : Option (List Nat)) (s : List Nat) : Option (List Nat) :=
  match best with
  | none => some s
  | some b => if listLt b s then some s else some b

/-- `bestOf`: the maximization loop of `calculate_odds` lines 176-183 —
evaluate every 5-card combination of the given cards
(`itertools.combinations(hand + final_board, 5)`) and keep the greatest
score under the Python list order. -/
def bestScore (cards : List Card) : Option (List Nat) :=
  (cards.sublistsLen 5).foldl
    (fun best combo => bestStep best (evaluate_hand combo).2) none

/-- A concrete 7-card set (hole cards + full board) used as a witness. -/
def sevenCardsEx : List Card :=
  [⟨.ace, .spades⟩, ⟨.king, .spades⟩, ⟨.queen, .diamonds⟩, ⟨.jack, .clubs⟩,
   ⟨.nine, .hearts⟩, ⟨.eight, .spades⟩, ⟨.two, .clubs⟩]

/-- A concrete small deck used as a witness for the draw-disjointness
theorem. -/
def deckEx : List Card :=
  [⟨.ace, .spades⟩, ⟨.king, .hearts⟩, ⟨.queen, .diamonds⟩, ⟨.two, .clubs⟩]

/-- Concrete fixed (known) cards for the same witness. -/
def fixedEx : List Card := [⟨.ace, .spades⟩]

/-- Concrete draw outcomes for the same witness: one 2-card hole draw and a
1-card board completion. -/
def drawsEx : List (List Card) :=
  [[⟨.king, .hearts⟩, ⟨.queen, .diamonds⟩], [⟨.two, .clubs⟩]]

/-- Concrete used-card list (2 hole + 4 board cards) for the termination
witness. -/
def usedEx : List Card :=
  [⟨.ace, .spades⟩, ⟨.king, .hearts⟩, ⟨.queen, .diamonds⟩, ⟨.jack, .clubs⟩,
   ⟨.nine, .hearts⟩, ⟨.eight, .spades⟩]

theorem listLt_irrefl (a : List Nat) : listLt a a = false := by
  induction a with
  | nil => rfl
  | cons x xs ih => simp [listLt, ih]

theorem listLt_trans {a b c : List Nat} (hab : listLt a b = true)
    (hbc : listLt b c = true) : listLt a c = true := by
  induction a generalizing b c with
  | nil =>
    cases b with
    | nil => simp [listLt] at hab
    | cons y ys =>
      cases c with
      | nil => simp [listLt] at hbc
      | cons z zs => simp [listLt]
  | cons x xs ih =>
    cases b with
    | nil => simp [listLt] at hab
    | cons y ys =>
      cases c with
      | nil => simp [listLt] at hbc
      | cons z zs =>
        simp only [listLt] at hab hbc ⊢
        split_ifs at hab hbc ⊢ with h1 h2 h3 h4 h5 h6 <;> try rfl
        all_goals (try omega)
        all_goals (try simp_all)
        · exact ih hab hbc

theorem listLt_asymm {a b : List Nat} (hab : listLt a b = true) :
    listLt b a = false := by
  by_contra h
  have hba : listLt b a = true := by
    cases hb : listLt b a with
    | false => exact absurd hb h
    | true => rfl
  have := listLt_trans hab hba
  rw [listLt_irrefl] at this
  cases this

theorem listLt_connex {a b : List Nat} (hab : listLt a b = false)
    (hba : listLt b a = false) : a = b := by
  induction a generalizing b with
  | nil =>
    cases b with
    | nil => rfl
    | cons y ys => simp [listLt] at hab
  | cons x xs ih =>
    cases b with
    | nil => simp [listLt] at hba
    | cons y ys =>
      simp only [listLt] at hab hba
      split_ifs at hab hba with h1 h2 h3 h4 <;> try omega
      have hxy : x = y := by omega
      subst hxy
      rw [ih hab hba]

theorem listLt_ne {a b : List Nat} (hab : listLt a b = true) : a ≠ b := by
  intro h
  subst h
  rw [listLt_irrefl] at hab
  cases hab

theorem removeCards_nil (d : List Card) : removeCards d [] = d := rfl

theorem removeCards_cons (d : List Card) (a : Card) (t : List Card) :
    removeCards d (a :: t) = removeCards (if a ∈ d then d.erase a else d) t := rfl

theorem removeCards_mem_iff {d : List Card} (hnd : d.Nodup) (used : List Card)
    (c : Card) : c ∈ removeCards d used ↔ c ∈ d ∧ c ∉ used := by
  induction used generalizing d with
  | nil => simp [removeCards]
  | cons a t ih =>
    rw [removeCards_cons]
    by_cases ha : a ∈ d
    · simp only [ha, if_true]
      rw [ih (hnd.erase a), hnd.mem_erase_iff]
      constructor
      · rintro ⟨⟨hne, hcd⟩, hnt⟩
        refine ⟨hcd, ?_⟩
        simp only [List.mem_cons]
        rintro (rfl | hct)
        · exact hne rfl
        · exact hnt hct
      · rintro ⟨hcd, hn⟩
        simp only [List.mem_cons, not_or] at hn
        exact ⟨⟨hn.1, hcd⟩, hn.2⟩
    · simp only [ha, if_false]
      rw [ih hnd]
      constructor
      · rintro ⟨hcd, hnt⟩
        refine ⟨hcd, ?_⟩
        simp only [List.mem_cons, not_or]
        exact ⟨fun hca => ha (hca ▸ hcd), hnt⟩
      · rintro ⟨hcd, hn⟩
        simp only [List.mem_cons, not_or] at hn
        exact ⟨hcd, hn.2⟩

theorem removeCards_nodup {d : List Card} (hd : d.Nodup) (used : List Card) :
    (removeCards d used).Nodup := by
  induction used generalizing d with
  | nil => exact hd
  | cons a t ih =>
    rw [removeCards_cons]
    by_cases ha : a ∈ d
    · simp only [ha, if_true]
      exact ih (hd.erase a)
    · simp only [ha, if_false]
      exact ih hd

theorem removeCards_length {d used : List Card} (hd : d.Nodup) (hu : used.Nodup)
    (hsub : ∀ c ∈ used, c ∈ d) :
    (removeCards d used).length = d.length - used.length := by
  induction used generalizing d with
  | nil => simp [removeCards]
  | cons a t ih =>
    have ha : a ∈ d := hsub a (List.mem_cons_self a t)
    rw [removeCards_cons]
    simp only [ha, if_true]
    have hu' := List.nodup_cons.mp hu
    have hsub' : ∀ c ∈ t, c ∈ d.erase a := by
      intro c hc
      have hcd := hsub c (List.mem_cons_of_mem a hc)
      have hca : c ≠ a := fun h => hu'.1 (h ▸ hc)
      exact hd.mem_erase_iff.mpr ⟨hca, hcd⟩
    rw [ih (hd.erase a) hu'.2 hsub', List.length_erase_of_mem ha]
    simp only [List.length_cons]
    omega

theorem eraseCards_cons (d : List Card) (a : Card) (t : List Card) :
    eraseCards d (a :: t) = eraseCards (d.erase a) t := rfl

theorem mem_eraseCards {d l : List Card} {c : Card} (h : c ∈ eraseCards d l) :
    c ∈ d := by
  induction l generalizing d with
  | nil => exact h
  | cons a t ih =>
    rw [eraseCards_cons] at h
    exact List.mem_of_mem_erase (ih h)

theorem eraseCards_nodup {d : List Card} (hd : d.Nodup) (l : List Card) :
    (eraseCards d l).Nodup := by
  induction l generalizing d with
  | nil => exact hd
  | cons a t ih =>
    rw [eraseCards_cons]
    exact ih (hd.erase a)

theorem not_mem_eraseCards {d : List Card} (hd : d.Nodup) {l : List Card}
    {c : Card} (hc : c ∈ l) : c ∉ eraseCards d l := by
  induction l generalizing d with
  | nil => cases hc
  | cons a t ih =>
    rw [eraseCards_cons]
    rcases List.mem_cons.mp hc with rfl | hct
    · intro hmem
      have hce : c ∈ d.erase c := mem_eraseCards hmem
      exact ((hd.mem_erase_iff).mp hce).1 rfl
    · exact ih (hd.erase a) hct

theorem validDraws_spec {d : List Card} (hd : d.Nodup) {draws : List (List Card)}
    (hv : validDraws d draws = true) :
    draws.flatten.Nodup ∧ ∀ c ∈ draws.flatten, c ∈ d := by
  induction draws generalizing d with
  | nil => simp
  | cons draw rest ih =>
    simp only [validDraws, Bool.and_eq_true, decide_eq_true_eq,
      List.all_eq_true] at hv
    obtain ⟨⟨hnodup, hsub⟩, hrest⟩ := hv
    have hsub' : ∀ c ∈ draw, c ∈ d := hsub
    obtain ⟨hjnodup, hjsub⟩ := ih (eraseCards_nodup hd draw) hrest
    rw [show (draw :: rest).flatten = draw ++ rest.flatten from rfl]
    constructor
    · rw [List.nodup_append]
      refine ⟨hnodup, hjnodup, ?_⟩
      intro c hc1 hc2
      exact not_mem_eraseCards hd hc1 (hjsub c hc2)
    · intro c hc
      rcases List.mem_append.mp hc with hc1 | hc2
      · exact hsub' c hc1
      · exact mem_eraseCards (hjsub c hc2)

theorem countP_ext_mem {α : Type} (l : List α) (p q : α → Bool)
    (h : ∀ a ∈ l, p a = q a) : l.countP p = l.countP q := by
  induction l with
  | nil => rfl
  | cons a t ih =>
    rw [List.countP_cons, List.countP_cons, h a (List.mem_cons_self a t),
      ih (fun x hx => h x (List.mem_cons_of_mem a hx))]

theorem trial_preds_two (s : List (List Nat)) (h : s.length = 2) :
    (listLt (simOppBest s) (simPlayerScore s) = decide (winnersOf s = [0])) ∧
    ((!(listLt (simOppBest s) (simPlayerScore s)) &&
        decide (simPlayerScore s = simOppBest s)) =
      decide ((winnersOf s).length ≠ 1 ∧ 0 ∈ winnersOf s)) := by
  match s, h with
  | [a, b], _ =>
    have hps : simPlayerScore [a, b] = a := rfl
    have hob : simOppBest [a, b] = b := rfl
    cases hab : listLt a b with
    | true =>
      have hne : a ≠ b := listLt_ne hab
      have hba : listLt b a = false := listLt_asymm hab
      have hm : maxList [a, b] = b := by simp [maxList, hab]
      have hw : winnersOf [a, b] = [1] := by
        simp [winnersOf, hm, List.filter, hne]
      rw [hps, hob, hba, hw]
      simp [hne]
    | false =>
      cases hba : listLt b a with
      | true =>
        have hne : b ≠ a := listLt_ne hba
        have hm : maxList [a, b] = a := by simp [maxList, hab]
        have hw : winnersOf [a, b] = [0] := by
          simp [winnersOf, hm, List.filter, hne]
        rw [hps, hob, hba, hw]
        simp
      | false =>
        have heq : a = b := listLt_connex hab hba
        subst heq
        have hm : maxList [a, a] = a := by simp [maxList, listLt_irrefl]
        have hw : winnersOf [a, a] = [0, 1] := by
          simp [winnersOf, hm, List.filter]
        rw [hps, hob, hba, hw]
        simp

/-- C1: refuted on the code — the aggregation divides the tie percentage by
the length of the stale loop variable `winners` (the final trial's winner
list).  On a 2-trial run where player 0 first wins outright and the final
trial is a two-way tie, the code reports winPercent = 50, tiePercent = 50,
but equityPercent = 50 + 50/2 = 75, not winPercent + tiePercent = 100 as
the claim states. -/
theorem odds_equity_uses_stale_winners :
    oddsWinPct [[[2], [1]], [[1], [1]]] 0 = 50 ∧
    oddsTiePct [[[2], [1]], [[1], [1]]] 0 = 50 ∧
    oddsEquity [[[2], [1]], [[1], [1]]] 0 = 75 := by
  have hw : oddsWins [[[2], [1]], [[1], [1]]] 0 = 1 := by decide
  have ht : oddsTies [[[2], [1]], [[1], [1]]] 0 = 1 := by decide
  have hl : oddsLastWinners [[[2], [1]], [[1], [1]]] = [0, 1] := by decide
  refine ⟨?_, ?_, ?_⟩ <;>
    simp [oddsWinPct, oddsTiePct, oddsEquity, hw, ht, hl] <;> norm_num

/-- C4 counterexample: on the same per-trial outcomes (first trial a
two-way tie, second trial a clean win for player 0), the outs path's
equity routine `_simulate_equity` reports (1 + 1/2)/2·100 = 75, while the
`calculate_odds` aggregation reports 50 + 50/1 = 100 for the same player —
so the baseline equity does not equal the Equity Simulator's
equityPercent. -/
theorem outs_baseline_differs_from_odds :
    simEquityAgg [[[1], [1]], [[2], [1]]] = 75 ∧
    oddsEquity [[[1], [1]], [[2], [1]]] 0 = 100 := by
  have hsw : simWins [[[1], [1]], [[2], [1]]] = 1 := by decide
  have hst : simTies [[[1], [1]], [[2], [1]]] = 1 := by decide
  have hw : oddsWins [[[1], [1]], [[2], [1]]] 0 = 1 := by decide
  have ht : oddsTies [[[1], [1]], [[2], [1]]] 0 = 1 := by decide
  have hl : oddsLastWinners [[[1], [1]], [[2], [1]]] = [0] := by decide
  constructor <;>
    simp [simEquityAgg, oddsWinPct, oddsTiePct, oddsEquity, hsw, hst, hw, ht, hl] <;>
    norm_num

/-- C5 counterexample: for trial count 5 the code passes `5 // 10 = 0`
trials to the per-river secondary simulation, not `max(floor(5/10), 1) = 1`
as the claim states. -/
theorem secondary_trials_zero_below_ten :
    secondaryTrials 5 = 0 ∧ secondaryTrials 5 ≠ max (5 / 10) 1 := by decide

/-- C5 amended: each per-candidate-river secondary simulation runs with
exactly `floor(t/10)` trials; for `t ≥ 10` this agrees with
`max(floor(t/10), 1)`, but there is no minimum of one — for `t < 10` the
code passes zero trials. -/
theorem secondary_trials_tenth (sims : Nat) (h : 10 ≤ sims) :
    secondaryTrials sims = max (sims / 10) 1 := by
  simp only [secondaryTrials]
  omega

/-- Witness for `secondary_trials_tenth` at the code's default trial count
of 5000. -/
theorem secondary_trials_tenth_witness :
    (10 : Nat) ≤ 5000 ∧ secondaryTrials 5000 = max (5000 / 10) 1 :=
  ⟨by decide, secondary_trials_tenth 5000 (by decide)⟩

/-- C6: a candidate river card is classified as an out exactly when it is
in the remaining deck and its measured equity strictly exceeds the baseline
equity plus 20 percentage points. -/
theorem out_iff_gain_over_threshold (equityOf : Card → ℚ) (currentEquity : ℚ)
    (deck : List Card) (c : Card) :
    c ∈ outsFrom equityOf currentEquity deck ↔
      c ∈ deck ∧ currentEquity + 20 < equityOf c := by
  simp [outsFrom]

/-- Closed instance of `out_iff_gain_over_threshold` on a concrete deck
and equity function. -/
theorem out_iff_gain_over_threshold_witness :
    (⟨.two, .clubs⟩ : Card) ∈ outsFrom (fun _ => (30 : ℚ)) 0 deckEx ↔
      (⟨.two, .clubs⟩ : Card) ∈ deckEx ∧ (0 : ℚ) + 20 < 30 :=
  out_iff_gain_over_threshold (fun _ => (30 : ℚ)) 0 deckEx ⟨.two, .clubs⟩

/-- C2: refuted on the code — for the wheel `{2h,3d,4s,5c,Ah}` the card
values are 0,1,2,3,12 (0-based rank indices), so the special-case test
`set(rank_values) == {14,2,3,4,5}` at line 69 can never hold and the hand
is classified as High Card (tier 1), not as a Straight (tier 5) with high
card 5. -/
theorem wheel_not_detected :
    evaluate_hand wheelHand = ("High Card", [1, 12, 3, 2, 1, 0]) := by decide

/-- C3: refuted on the code — for `{Ah,Kh,Qh,Jh,Th}` the maximum card value
is 12 (Ace's 0-based index), so the Royal Flush test
`max(rank_values) == 14 and min(rank_values) == 10` at line 75 can never
hold and the hand is classified as Straight Flush (tier 9) with tie-break
12, not Royal Flush (tier 10). -/
theorem royal_not_detected :
    evaluate_hand royalHand = ("Straight Flush", [9, 12]) := by decide

/-- C4 amended: for identical per-trial best-score outcomes with two
players, the outs path's equity routine reports
winPercent + tiePercent / 2 — tie credit at half value — rather than the
`calculate_odds` equityPercent. -/
theorem outs_equity_halves_ties (trials : List (List (List Nat)))
    (h : ∀ s ∈ trials, s.length = 2) :
    simEquityAgg trials = oddsWinPct trials 0 + oddsTiePct trials 0 / 2 := by
  have hw : simWins trials = oddsWins trials 0 :=
    countP_ext_mem _ _ _ (fun s hs => (trial_preds_two s (h s hs)).1)
  have ht : simTies trials = oddsTies trials 0 :=
    countP_ext_mem _ _ _ (fun s hs => (trial_preds_two s (h s hs)).2)
  simp only [simEquityAgg, oddsWinPct, oddsTiePct, hw, ht]
  by_cases hn : (trials.length : ℚ) = 0
  · rw [hn]
    simp
  · field_simp
    ring

/-- Witness for `outs_equity_halves_ties` on a concrete 2-player,
2-trial outcome list. -/
theorem outs_equity_halves_ties_witness :
    (∀ s ∈ [[[1], [2]], [[2], [2]]], s.length = 2) ∧
      simEquityAgg [[[1], [2]], [[2], [2]]] =
        oddsWinPct [[[1], [2]], [[2], [2]]] 0 +
          oddsTiePct [[[1], [2]], [[2], [2]]] 0 / 2 :=
  ⟨by decide, outs_equity_halves_ties _ (by decide)⟩

/-- C8: in any simulation trial, every sequence of valid random draws
(each draw a duplicate-free selection from the current deck, the deck
shrinking after each draw) from the deck left after removing the fixed
hole and board cards yields drawn cards that are pairwise distinct and
disjoint from every fixed card. -/
theorem trial_draws_disjoint (deck0 fixed : List Card) (draws : List (List Card))
    (hnd : deck0.Nodup)
    (hv : validDraws (removeCards deck0 fixed) draws = true) :
    draws.flatten.Nodup ∧ ∀ c ∈ draws.flatten, c ∉ fixed := by
  have hdnodup : (removeCards deck0 fixed).Nodup := removeCards_nodup hnd fixed
  obtain ⟨h1, h2⟩ := validDraws_spec hdnodup hv
  refine ⟨h1, fun c hc hcf => ?_⟩
  exact ((removeCards_mem_iff hnd fixed c).mp (h2 c hc)).2 hcf

/-- Witness for `trial_draws_disjoint` on a concrete deck, fixed cards and
draw sequence. -/
theorem trial_draws_disjoint_witness :
    deckEx.Nodup ∧ validDraws (removeCards deckEx fixedEx) drawsEx = true ∧
      (drawsEx.flatten.Nodup ∧ ∀ c ∈ drawsEx.flatten, c ∉ fixedEx) :=
  ⟨by decide, by decide,
    trial_draws_disjoint deckEx fixedEx drawsEx (by decide) (by decide)⟩

/-- C9 counterexample: with deck `[As]` and used set `[Kh]` — a used card
absent from the deck — the code's removal loop silently skips the missing
card and returns the deck unchanged, while the spec's `deckExcluding`
demands a `DuplicateCardError` failure. -/
theorem deck_excluding_skips_missing :
    removeCards [⟨.ace, .spades⟩] [⟨.king, .hearts⟩] = [⟨.ace, .spades⟩] ∧
      deckExcludingSpec [⟨.ace, .spades⟩] [⟨.king, .hearts⟩] =
        .error .duplicateCard :=
  ⟨rfl, rfl⟩

/-- C9 amended: the code's known-card removal never fails — it removes
exactly the used cards that are present in the (duplicate-free) deck and
silently ignores used cards not present. -/
theorem deck_excluding_silently_skips {d : List Card} (hnd : d.Nodup)
    (used : List Card) (c : Card) :
    c ∈ removeCards d used ↔ c ∈ d ∧ c ∉ used :=
  removeCards_mem_iff hnd used c

/-- Witness for `deck_excluding_silently_skips` on a concrete deck. -/
theorem deck_excluding_silently_skips_witness :
    deckEx.Nodup ∧
      ((⟨.king, .hearts⟩ : Card) ∈ removeCards deckEx fixedEx ↔
        (⟨.king, .hearts⟩ : Card) ∈ deckEx ∧
          (⟨.king, .hearts⟩ : Card) ∉ fixedEx) :=
  ⟨by decide, deck_excluding_silently_skips (by decide) fixedEx ⟨.king, .hearts⟩⟩

theorem fillHandsFuel_stop (sample2 : List Card → List Card) (fuel : Nat)
    (hands : List (List Card)) (deck : List Card) (numOpp : Nat)
    (h : ¬ hands.length ≤ numOpp) :
    fillHandsFuel sample2 (fuel + 1) hands deck numOpp = some (hands, deck) := by
  simp [fillHandsFuel, h]

theorem fillHandsFuel_draw (sample2 : List Card → List Card) (fuel : Nat)
    (hands : List (List Card)) (deck : List Card) (numOpp : Nat)
    (h1 : hands.length ≤ numOpp) (h2 : 2 ≤ deck.length) :
    fillHandsFuel sample2 (fuel + 1) hands deck numOpp =
      fillHandsFuel sample2 fuel (hands ++ [sample2 deck])
        (eraseCards deck (sample2 deck)) numOpp := by
  simp [fillHandsFuel, h1, h2]

/-- C10: for inputs accepted by `calculate_outs`'s validation (player hand
of 2 cards, 4-card turn board, each known opponent hand of 2 cards, all
cards distinct — so the used set has `6 + 2k` cards, or `7 + 2k` once a
candidate river is fixed), the deck left for the simulation has at least 2
cards whenever there are no known opponents (`k = 0`, the only case in
which the hand-filling while-loop runs), and the loop terminates: two
units of fuel always produce a result, whatever `random.sample` returns. -/
theorem outs_sim_loop_terminates (sample2 : List Card → List Card) (k : Nat)
    (hands : List (List Card)) (used : List Card) (numOpp : Nat)
    (hlen : hands.length = k + 1)
    (hnum : numOpp = if k = 0 then 1 else k)
    (hused : used.Nodup) (hsub : ∀ c ∈ used, c ∈ createDeck)
    (hcount : used.length = 6 + 2 * k ∨ used.length = 7 + 2 * k) :
    (k = 0 → 2 ≤ (removeCards createDeck used).length) ∧
    (fillHandsFuel sample2 2 hands (removeCards createDeck used) numOpp).isSome =
      true := by
  have hdn : createDeck.Nodup := by decide
  have hlen52 : createDeck.length = 52 := by decide
  have hrl : (removeCards createDeck used).length = 52 - used.length := by
    rw [removeCards_length hdn hused hsub, hlen52]
  have hdeck2 : k = 0 → 2 ≤ (removeCards createDeck used).length := by
    intro hk
    subst hk
    rw [hrl]
    omega
  refine ⟨hdeck2, ?_⟩
  rcases Nat.eq_zero_or_pos k with hk | hk
  · subst hk
    rw [if_pos rfl] at hnum
    have h1 : hands.length ≤ numOpp := by
      rw [hlen, hnum]
    have h2 : 2 ≤ (removeCards createDeck used).length := hdeck2 rfl
    rw [show (2 : Nat) = 1 + 1 from rfl,
      fillHandsFuel_draw sample2 1 hands _ numOpp h1 h2]
    have h3 : ¬ (hands ++ [sample2 (removeCards createDeck used)]).length ≤ numOpp := by
      simp only [List.length_append, List.length_cons, List.length_nil, hlen, hnum]
      omega
    rw [fillHandsFuel_stop _ 0 _ _ _ h3]
    rfl
  · have hkne : k ≠ 0 := Nat.pos_iff_ne_zero.mp hk
    have h1 : ¬ hands.length ≤ numOpp := by
      rw [hlen, hnum]
      simp only [hkne, if_false]
      omega
    rw [show (2 : Nat) = 1 + 1 from rfl, fillHandsFuel_stop _ 1 _ _ _ h1]
    rfl

/-- Witness for `outs_sim_loop_terminates`: no known opponents, a concrete
6-card used set, and `random.sample` modelled as taking the first two deck
cards. -/
theorem outs_sim_loop_terminates_witness :
    ([[(⟨.ace, .spades⟩ : Card), ⟨.king, .hearts⟩]] : List (List Card)).length =
        0 + 1 ∧
      usedEx.Nodup ∧ (∀ c ∈ usedEx, c ∈ createDeck) ∧
      ((0 = 0 → 2 ≤ (removeCards createDeck usedEx).length) ∧
        (fillHandsFuel (fun d => d.take 2) 2
            [[⟨.ace, .spades⟩, ⟨.king, .hearts⟩]]
            (removeCards createDeck usedEx) 1).isSome = true) :=
  ⟨by decide, by decide, by decide,
    outs_sim_loop_terminates (fun d => d.take 2) 0
      [[⟨.ace, .spades⟩, ⟨.king, .hearts⟩]] usedEx 1 (by decide) rfl
      (by decide) (by decide) (Or.inl (by decide))⟩

theorem foldBest_from (l : List (List Nat)) : ∀ b : List Nat,
    ∃ r, l.foldl bestStep (some b) = some r ∧ (r = b ∨ r ∈ l) ∧
      listLt r b = false ∧ ∀ x ∈ l, listLt r x = false := by
  induction l with
  | nil =>
    intro b
    exact ⟨b, rfl, Or.inl rfl, listLt_irrefl b, by simp⟩
  | cons s t ih =>
    intro b
    rw [List.foldl_cons,
      show bestStep (some b) s = if listLt b s then some s else some b from rfl]
    cases hbs : listLt b s with
    | true =>
      rw [if_pos rfl]
      obtain ⟨r, hr, hmem, hrs, hall⟩ := ih s
      refine ⟨r, hr, ?_, ?_, ?_⟩
      · rcases hmem with rfl | hmem
        · exact Or.inr (List.mem_cons_self _ _)
        · exact Or.inr (List.mem_cons_of_mem s hmem)
      · cases hrb : listLt r b with
        | false => rfl
        | true =>
          have htr : listLt r s = true := listLt_trans hrb hbs
          rw [hrs] at htr
          cases htr
      · intro x hx
        rcases List.mem_cons.mp hx with rfl | hxt
        · exact hrs
        · exact hall x hxt
    | false =>
      rw [if_neg Bool.false_ne_true]
      obtain ⟨r, hr, hmem, hrb, hall⟩ := ih b
      refine ⟨r, hr, ?_, hrb, ?_⟩
      · rcases hmem with rfl | hmem
        · exact Or.inl rfl
        · exact Or.inr (List.mem_cons_of_mem s hmem)
      · intro x hx
        rcases List.mem_cons.mp hx with rfl | hxt
        · cases hrx : listLt r x with
          | false => rfl
          | true =>
            cases hsb : listLt x b with
            | true =>
              have : listLt r b = true := listLt_trans hrx hsb
              rw [hrb] at this
              cases this
            | false =>
              have hbx : b = x := listLt_connex hbs hsb
              rw [hbx] at hrb
              rw [hrb] at hrx
              cases hrx
        · exact hall x hxt

/-- C7: the best-of score over all 5-card combinations of a 5-to-7-card
set is defined, never less than the evaluation of any of the five-card
subsets under the Python list order, and is exactly the evaluation of at
least one such subset. -/
theorem best_of_is_max (cards : List Card) (h5 : 5 ≤ cards.length)
    (h7 : cards.length ≤ 7) :
    ∃ r, bestScore cards = some r ∧
      (∀ combo ∈ cards.sublistsLen 5, listLt r (evaluate_hand combo).2 = false) ∧
      ∃ combo ∈ cards.sublistsLen 5, (evaluate_hand combo).2 = r := by
  have hne : cards.sublistsLen 5 ≠ [] := by
    intro h
    have hl : (cards.sublistsLen 5).length = Nat.choose cards.length 5 :=
      List.length_sublistsLen 5 cards
    rw [h] at hl
    have hpos : 0 < Nat.choose cards.length 5 := Nat.choose_pos h5
    simp at hl
    omega
  obtain ⟨combo0, rest, hsplit⟩ := List.exists_cons_of_ne_nil hne
  have hbs : bestScore cards =
      (rest.map (fun c => (evaluate_hand c).2)).foldl bestStep
        (some ((evaluate_hand combo0).2)) := by
    rw [bestScore, hsplit, List.foldl_cons, ← List.foldl_map]
    rfl
  obtain ⟨r, hr, hmem, hre0, hall⟩ :=
    foldBest_from (rest.map fun c => (evaluate_hand c).2) ((evaluate_hand combo0).2)
  refine ⟨r, by rw [hbs, hr], ?_, ?_⟩
  · intro combo hcombo
    rw [hsplit] at hcombo
    rcases List.mem_cons.mp hcombo with rfl | hct
    · exact hre0
    · exact hall _ (List.mem_map_of_mem _ hct)
  · rcases hmem with rfl | hmem
    · exact ⟨combo0, by rw [hsplit]; exact List.mem_cons_self _ _, rfl⟩
    · obtain ⟨combo, hcm, hce⟩ := List.mem_map.mp hmem
      exact ⟨combo, by rw [hsplit]; exact List.mem_cons_of_mem _ hcm, hce⟩

/-- Witness for `best_of_is_max` on a concrete 7-card set. -/
theorem best_of_is_max_witness :
    5 ≤ sevenCardsEx.length ∧ sevenCardsEx.length ≤ 7 ∧
      ∃ r, bestScore sevenCardsEx = some r ∧
        (∀ combo ∈ sevenCardsEx.sublistsLen 5,
          listLt r (evaluate_hand combo).2 = false) ∧
        ∃ combo ∈ sevenCardsEx.sublistsLen 5, (evaluate_hand combo).2 = r :=
  ⟨by decide, by decide, best_of_is_max sevenCardsEx (by decide) (by decide)⟩

end Poker
